import Mathlib

/-!
Verification of the nandland sequential-logic stack (latches, master-slave
flip-flops, ripple counter) against its natural-language specification.

The flip-flop layer (`flipflop.rs`) and the counter (`counter.rs`) are
embedded directly from the source.  The gate library (`gate.rs`) and the
latch layer (`latch.rs`) are not part of the provided sources; they are
modelled from the specification's behavioral contracts (spec sections 4.1,
4.2 and 4.3).
-/

set_option maxRecDepth 4096

/-- Modelled from the spec: the boolean NOT gate of the gate library
(`gate.rs`, not under the provided sources): a pure unary function with the
standard truth table. -/
def gate.not (a : Bool) : Bool := !a

/-- Modelled from the spec: the n-ary boolean AND gate of the gate library
(`gate.rs`, not under the provided sources): true exactly when every input
is true. -/
def gate.and (xs : List Bool) : Bool := xs.all (fun x => x)

/-- Modelled from the spec: `DLatch` (`latch.rs`, not under the provided
sources).  State is a single stored bit; `Q` reads it and `Qn` reads its
complement. -/
structure DLatch where
  state : Bool
  deriving DecidableEq

/-- Modelled from the spec: `DLatch::new` returns the reset state
(Q = false, Qn = true). -/
def DLatch.new : DLatch := ⟨false⟩

/-- Modelled from the spec: `DLatch::set(enable, data)`: while `enable` is
true, Q becomes `data`; while `enable` is false, Q retains its last value. -/
def DLatch.set (l : DLatch) (enable data : Bool) : DLatch :=
  if enable then ⟨data⟩ else l

/-- Modelled from the spec: `DLatch::clear` forces Q = false regardless of
enable. -/
def DLatch.clear (_ : DLatch) : DLatch := ⟨false⟩

/-- Modelled from the spec: `DLatch::q` reads the stored bit. -/
def DLatch.q (l : DLatch) : Bool := l.state

/-- Modelled from the spec: `DLatch::qn` reads the complement of the stored
bit. -/
def DLatch.qn (l : DLatch) : Bool := !l.state

/-- Modelled from the spec: `GatedSRLatch` (`latch.rs`, not under the
provided sources).  State is a single stored bit with complementary
outputs. -/
structure GatedSRLatch where
  state : Bool
  deriving DecidableEq

/-- Modelled from the spec: `GatedSRLatch::new` returns the reset state. -/
def GatedSRLatch.new : GatedSRLatch := ⟨false⟩

/-- Modelled from the spec: `GatedSRLatch::set(s, enable, r)`: when `enable`
is true, (s, not r) sets Q, (not s, r) resets Q, (not s, not r) holds.  The
simultaneous s = r = true combination is unspecified by the spec
("implementation-defined"); it is modelled as a hold.  No theorem below
depends on that choice: the flip-flop layer provably never produces it. -/
def GatedSRLatch.set (l : GatedSRLatch) (s enable r : Bool) : GatedSRLatch :=
  if enable then
    if s && !r then ⟨true⟩
    else if !s && r then ⟨false⟩
    else l
  else l

/-- Modelled from the spec: `GatedSRLatch::clear` forces Q = false. -/
def GatedSRLatch.clear (_ : GatedSRLatch) : GatedSRLatch := ⟨false⟩

/-- Modelled from the spec: `GatedSRLatch::q` reads the stored bit. -/
def GatedSRLatch.q (l : GatedSRLatch) : Bool := l.state

/-- Modelled from the spec: `GatedSRLatch::qn` reads the complement of the
stored bit. -/
def GatedSRLatch.qn (l : GatedSRLatch) : Bool := !l.state

/-- `DFlipflop` (flipflop.rs): a master and a slave `DLatch`. -/
structure DFlipflop where
  master : DLatch
  slave : DLatch
  deriving DecidableEq

/-- `DFlipflop::new` (flipflop.rs lines 13-18): both latches in the reset
state; no further step is taken. -/
def DFlipflop.new : DFlipflop := ⟨DLatch.new, DLatch.new⟩

/-- `DFlipflop::update(clk, d)` (flipflop.rs lines 24-27):
`master.set(not(clk), d)` then `slave.set(clk, master.q())`, the slave
reading the freshly updated master. -/
def DFlipflop.update (ff : DFlipflop) (clk d : Bool) : DFlipflop :=
  let m := ff.master.set (gate.not clk) d
  ⟨m, ff.slave.set clk m.q⟩

/-- `DFlipflop::clear` (flipflop.rs lines 29-32): clears both latches; no
further step is taken. -/
def DFlipflop.clear (ff : DFlipflop) : DFlipflop :=
  ⟨ff.master.clear, ff.slave.clear⟩

/-- `DFlipflop::q` (flipflop.rs lines 34-36). -/
def DFlipflop.q (ff : DFlipflop) : Bool := ff.slave.q

/-- `DFlipflop::qn` (flipflop.rs lines 38-40). -/
def DFlipflop.qn (ff : DFlipflop) : Bool := ff.slave.qn

/-- `SRFlipflop` (flipflop.rs): a master and a slave `GatedSRLatch`. -/
structure SRFlipflop where
  master : GatedSRLatch
  slave : GatedSRLatch
  deriving DecidableEq

/-- `SRFlipflop::new` (flipflop.rs lines 58-63): both latches in the reset
state; no further step is taken. -/
def SRFlipflop.new : SRFlipflop := ⟨GatedSRLatch.new, GatedSRLatch.new⟩

/-- `SRFlipflop::update(clk, s, r)` (flipflop.rs lines 67-70):
`master.set(s, not(clk), r)` then `slave.set(master.q(), clk, master.qn())`,
the slave reading the freshly updated master. -/
def SRFlipflop.update (ff : SRFlipflop) (clk s r : Bool) : SRFlipflop :=
  let m := ff.master.set s (gate.not clk) r
  ⟨m, ff.slave.set m.q clk m.qn⟩

/-- `SRFlipflop::q` (flipflop.rs lines 72-74). -/
def SRFlipflop.q (ff : SRFlipflop) : Bool := ff.slave.q

/-- `SRFlipflop::qn` (flipflop.rs lines 76-78). -/
def SRFlipflop.qn (ff : SRFlipflop) : Bool := ff.slave.qn

/-- `JKFlipflop` (flipflop.rs): wraps one `SRFlipflop`. -/
structure JKFlipflop where
  sr_flipflop : SRFlipflop
  deriving DecidableEq

/-- `JKFlipflop::new` (flipflop.rs lines 95-99). -/
def JKFlipflop.new : JKFlipflop := ⟨SRFlipflop.new⟩

/-- `JKFlipflop::q` (flipflop.rs lines 110-112). -/
def JKFlipflop.q (ff : JKFlipflop) : Bool := ff.sr_flipflop.q

/-- `JKFlipflop::qn` (flipflop.rs lines 114-116). -/
def JKFlipflop.qn (ff : JKFlipflop) : Bool := ff.sr_flipflop.qn

/-- `JKFlipflop::update(clk, j, k)` (flipflop.rs lines 103-108):
`s = and(j, qn)`, `r = and(k, q)` from the current outputs, then the inner
SR flip-flop is updated. -/
def JKFlipflop.update (ff : JKFlipflop) (clk j k : Bool) : JKFlipflop :=
  let s := gate.and [j, ff.sr_flipflop.qn]
  let r := gate.and [k, ff.sr_flipflop.q]
  ⟨ff.sr_flipflop.update clk s r⟩

/-- `RippleCounter::update` (counter.rs lines 25-33), on the list of
flip-flops least-significant first: the head is updated with the external
clock and its own Qn as data, and each following flip-flop is updated with
the freshly updated predecessor's Qn as clock and its own Qn as data. -/
def rippleUpdate : Bool → List DFlipflop → List DFlipflop
  | _, [] => []
  | clk, ff :: rest =>
    (ff.update clk ff.qn) :: rippleUpdate (ff.update clk ff.qn).qn rest

/-- State of a `RippleCounter<N>` (counter.rs): the array of N flip-flops,
least-significant first, as a list of length N. -/
def RippleCounter.update (l : List DFlipflop) (clk : Bool) : List DFlipflop :=
  rippleUpdate clk l

/-- `RippleCounter::new` (counter.rs lines 9-22): N reset flip-flops,
followed by the init step `update(false)`. -/
def RippleCounter.new (n : Nat) : List DFlipflop :=
  RippleCounter.update (List.replicate n DFlipflop.new) false

/-- `RippleCounter::clear` (counter.rs lines 36-41): clears every flip-flop
in index order, then re-runs the init step `update(false)`. -/
def RippleCounter.clear (l : List DFlipflop) : List DFlipflop :=
  RippleCounter.update (l.map DFlipflop.clear) false

/-- The accumulation loop of `RippleCounter::value` (counter.rs lines
45-48): `val |= if ff.q() { 1 << i } else { 0 }` over a `u64` accumulator.
A Rust `u64` shift masks the shift amount to its low six bits, hence the
explicit `% 64`; the accumulator never exceeds `2^64` because it is a
bitwise-or of such shifts. -/
def valueAcc : Nat → Nat → List DFlipflop → Nat
  | _, val, [] => val
  | i, val, ff :: rest =>
    valueAcc (i + 1) (val ||| (if ff.q then 1 <<< (i % 64) else 0)) rest

/-- The `u64` value accumulated by `RippleCounter::value` (counter.rs lines
44-51) before the `T::try_from` conversion. -/
def RippleCounter.valueU64 (l : List DFlipflop) : Nat := valueAcc 0 0 l

/-- `T::try_from(val)` for an unsigned integer type `T` of bit width `w`
(counter.rs line 50): the conversion succeeds exactly when the value is
representable in `T`, and never alters the value. -/
def tryFromU (w val : Nat) : Option Nat :=
  if val < 2 ^ w then some val else none

/-- `RippleCounter::value::<T>` (counter.rs lines 44-51) for an unsigned
integer target type of bit width `w`: accumulate the `u64` value, then
attempt the narrowing conversion. -/
def RippleCounter.value (w : Nat) (l : List DFlipflop) : Option Nat :=
  tryFromU w (RippleCounter.valueU64 l)

/-- One complete clock pulse of the counter: `update(true)` followed by
`update(false)`. -/
def pulse (l : List DFlipflop) : List DFlipflop :=
  RippleCounter.update (RippleCounter.update l true) false

/-- `t` complete clock pulses. -/
def pulses : Nat → List DFlipflop → List DFlipflop
  | 0, l => l
  | t + 1, l => pulse (pulses t l)

/-- Replay of a list of `(clk, d)` inputs through a D flip-flop. -/
def DFlipflop.run (ff : DFlipflop) : List (Bool × Bool) → DFlipflop
  | [] => ff
  | (clk, d) :: rest => (ff.update clk d).run rest

/-- Replay of a list of `(clk, j, k)` inputs through a JK flip-flop. -/
def JKFlipflop.run (ff : JKFlipflop) : List (Bool × Bool × Bool) → JKFlipflop
  | [] => ff
  | (clk, j, k) :: rest => (ff.update clk j k).run rest

-- Validation against the repository's own unit tests (flipflop.rs and
-- counter.rs test modules): the embedding reproduces every asserted value.

example :
    (DFlipflop.new.run [(true, false)]).q = false ∧
    (DFlipflop.new.run [(true, false), (true, true)]).q = false ∧
    (DFlipflop.new.run [(true, false), (true, true), (false, true)]).q = false ∧
    (DFlipflop.new.run
      [(true, false), (true, true), (false, true), (true, true)]).q = true ∧
    (DFlipflop.new.run
      [(true, false), (true, true), (false, true), (true, true),
       (false, false)]).q = true ∧
    (DFlipflop.new.run
      [(true, false), (true, true), (false, true), (true, true),
       (false, false), (true, false)]).q = false := by decide

example :
    (JKFlipflop.new.run [(true, false, false)]).q = false ∧
    (JKFlipflop.new.run
      [(true, false, false), (false, false, false), (false, true, false)]).q
        = false ∧
    (JKFlipflop.new.run
      [(true, false, false), (false, false, false), (false, true, false),
       (true, true, false)]).q = true ∧
    (JKFlipflop.new.run
      [(true, false, false), (false, false, false), (false, true, false),
       (true, true, false), (false, true, false), (false, false, true),
       (true, false, true)]).q = false ∧
    (JKFlipflop.new.run
      [(true, false, false), (false, false, false), (false, true, false),
       (true, true, false), (false, true, false), (false, false, true),
       (true, false, true), (false, true, true), (true, true, true)]).q
        = true := by decide

example : RippleCounter.value 64 (RippleCounter.new 8) = some 0 := by decide

example :
    RippleCounter.value 64 (pulses 100 (RippleCounter.new 8)) = some 100 := by
  decide

example :
    RippleCounter.value 64
      (RippleCounter.clear (pulses 100 (RippleCounter.new 8))) = some 0 := by
  decide

-- ### C2: D flip-flop edge semantics

/-- C2: for every D flip-flop state and every two consecutive
`update(clk, d)` calls, Q after the second call equals the `d` supplied on
the first call when the clock went from false to true across the two calls,
and is otherwise unchanged by the second call (so repeated calls with an
unchanged clock, with any data, never change Q); moreover the very first
call on a freshly constructed flip-flop never changes Q. -/
theorem dflipflop_edge_semantics :
    (∀ (ff : DFlipflop) (c d c2 d2 : Bool),
      ((ff.update c d).update c2 d2).q =
        (if !c && c2 then d else (ff.update c d).q)) ∧
    (∀ (c d : Bool), (DFlipflop.new.update c d).q = DFlipflop.new.q) := by
  constructor
  · intro ff c d c2 d2
    rcases ff with ⟨⟨m⟩, ⟨s⟩⟩
    cases c <;> cases c2 <;> cases m <;> cases s <;> rfl
  · intro c d
    cases c <;> rfl

-- ### C3: the JK derivation never feeds s = r = true to the SR flip-flop

/-- C3: for every JK flip-flop state (reachable or not) and every input
combination, the derived inputs `s = and(j, qn)` and `r = and(k, q)` that
`JKFlipflop::update` passes to the inner SR flip-flop are never
simultaneously true, because `q` and `qn` are complementary. -/
theorem jk_derived_sr_never_both_true (jk : JKFlipflop) (j k : Bool) :
    (gate.and [j, jk.qn] && gate.and [k, jk.q]) = false := by
  rcases jk with ⟨⟨⟨m⟩, ⟨s⟩⟩⟩
  cases s <;> cases j <;> cases k <;> rfl

-- ### C5: complement invariant

/-- C5: for every state of every flip-flop type (hence after every sequence
of `new`/`update`/`clear` operations), `qn()` is the negation of `q()`.  In
the spec's latch model each latch stores a single bit and exposes its
complement, so the invariant holds of every state without exception. -/
theorem complement_invariant (d : DFlipflop) (sr : SRFlipflop)
    (jk : JKFlipflop) :
    d.qn = !d.q ∧ sr.qn = !sr.q ∧ jk.qn = !jk.q :=
  ⟨rfl, rfl, rfl⟩

-- ### C10: repeated same-level clock inputs never produce extra counting

/-- A toggle-wired flip-flop stage is unchanged by a second update with the
same clock level. -/
theorem stage_update_idem (ff : DFlipflop) (c : Bool) :
    (ff.update c ff.qn).update c ((ff.update c ff.qn).qn) =
      ff.update c ff.qn := by
  rcases ff with ⟨⟨m⟩, ⟨s⟩⟩
  cases c <;> cases m <;> cases s <;> rfl

/-- A whole ripple chain is unchanged by a second update with the same clock
level. -/
theorem rippleUpdate_idem (l : List DFlipflop) :
    ∀ c : Bool, rippleUpdate c (rippleUpdate c l) = rippleUpdate c l := by
  induction l with
  | nil => intro c; rfl
  | cons ff rest ih =>
    intro c
    simp only [rippleUpdate]
    rw [stage_update_idem, ih]

/-- C10: for every counter state and clock level `c`, calling `update(c)`
twice in a row leaves the state after the second call identical to the state
after the first, so every flip-flop's Q output and the accumulated value are
unchanged by the second call. -/
theorem counter_same_level_update_idempotent (l : List DFlipflop) (c : Bool) :
    RippleCounter.update (RippleCounter.update l c) c =
      RippleCounter.update l c ∧
    (RippleCounter.update (RippleCounter.update l c) c).map DFlipflop.q =
      (RippleCounter.update l c).map DFlipflop.q ∧
    RippleCounter.valueU64 (RippleCounter.update (RippleCounter.update l c) c)
      = RippleCounter.valueU64 (RippleCounter.update l c) := by
  refine ⟨rippleUpdate_idem l c, ?_, ?_⟩ <;>
    rw [show RippleCounter.update (RippleCounter.update l c) c =
          RippleCounter.update l c from rippleUpdate_idem l c]

-- ### C6: which constructors perform a clock-settle step

/-- C6 counterexample: `DFlipflop::new` returns the bare reset state (both
latches fresh) and performs no clock-settle step: a `clk = false` settle
step of the kind the counter's init performs (data wired to the flip-flop's
own Qn) would load the master latch and produce a different state, so no
such step happens inside the constructor. -/
theorem constructor_settle_step_counterexample :
    DFlipflop.new = { master := DLatch.new, slave := DLatch.new } ∧
    DFlipflop.new.update false DFlipflop.new.qn ≠ DFlipflop.new :=
  ⟨rfl, by decide⟩

/-- C6 amended: only `RippleCounter::new` performs an internal clock-settle
step (`update(false)`) after building its flip-flops; the three flip-flop
constructors return the bare reset state directly.  That reset state is a
fixed point of a `clk = false` update with all data inputs low, while the
counter's settle step genuinely changes its state (shown at width 8). -/
theorem constructors_reset_and_counter_settles (n : Nat) :
    RippleCounter.new n =
      rippleUpdate false (List.replicate n DFlipflop.new) ∧
    DFlipflop.new = { master := DLatch.new, slave := DLatch.new } ∧
    SRFlipflop.new = { master := GatedSRLatch.new, slave := GatedSRLatch.new } ∧
    JKFlipflop.new = { sr_flipflop := SRFlipflop.new } ∧
    DFlipflop.new.update false false = DFlipflop.new ∧
    SRFlipflop.new.update false false false = SRFlipflop.new ∧
    JKFlipflop.new.update false false false = JKFlipflop.new ∧
    RippleCounter.new 8 ≠ List.replicate 8 DFlipflop.new :=
  ⟨rfl, rfl, rfl, rfl, by decide, by decide, by decide, by decide⟩

-- ### C7: `DFlipflop::clear`

/-- C7 counterexample: `DFlipflop::clear` only clears the two latches and
performs no re-settle step: from a state with Q high, `clear()` returns the
bare pair of cleared latches, and a `clk = false` settle step of the kind
the counter's init performs (data wired to Qn) applied after clearing would
load the master latch and produce a different state. -/
theorem dflipflop_clear_counterexample :
    ((DFlipflop.new.update false true).update true true).q = true ∧
    ((DFlipflop.new.update false true).update true true).clear =
      { master := DLatch.new, slave := DLatch.new } ∧
    (((DFlipflop.new.update false true).update true true).clear).update false
        ((((DFlipflop.new.update false true).update true true).clear).qn) ≠
      ((DFlipflop.new.update false true).update true true).clear :=
  ⟨by decide, by decide, by decide⟩

/-- C7 amended: from every prior state, `clear()` clears both the master
and slave latches (and does nothing else); afterwards `q() = false` and
`qn() = true`, and the cleared state is already settled for `clk = false`
with data low, so no re-settle step is needed or performed. -/
theorem dflipflop_clear_resets (ff : DFlipflop) :
    ff.clear = { master := DLatch.new, slave := DLatch.new } ∧
    ff.clear.q = false ∧ ff.clear.qn = true ∧
    ff.clear.update false false = ff.clear :=
  ⟨rfl, rfl, rfl, rfl⟩

-- ### C4: JK characteristic table on rising edges

/-- C4 counterexample: the JK flip-flop exhibits master-slave
"ones-catching": after the input sequence
`(clk=false,j=true,k=false)`, `(clk=true,j=true,k=false)`,
`(clk=false,j=false,k=true)` from a fresh flip-flop, Q is true; the next
two calls `(clk=false,j=true,k=false)`, `(clk=true,j=true,k=false)` form a
rising clock edge with `j = true, k = false`, yet Q becomes false rather
than true (the master had already latched the reset requested while the
clock was low, and the derived set input is masked by `qn = false`). -/
theorem jk_edge_table_counterexample :
    (JKFlipflop.new.run
      [(false, true, false), (true, true, false), (false, false, true)]).q
        = true ∧
    (JKFlipflop.new.run
      [(false, true, false), (true, true, false), (false, false, true),
       (false, true, false), (true, true, false)]).q = false :=
  ⟨by decide, by decide⟩

/-- C4 amended: on a rising clock edge formed by two consecutive calls
`update(false, j, k)` then `update(true, j, k)` (inputs held across the
pair), and provided the master and slave latches agree beforehand, Q follows
the characteristic table: hold for `j = k = false`, set for `j` only, reset
for `k` only, toggle for `j = k = true`.  The toggle case needs no
precondition at all, and every `clk = true` call re-aligns the master with
the slave (which is why the table holds in the natural usage pattern where
each rising edge is consumed before the inputs change). -/
theorem jk_edge_table (jk : JKFlipflop) (j k : Bool) :
    (jk.sr_flipflop.master.state = jk.sr_flipflop.slave.state →
      ((jk.update false j k).update true j k).q =
        (if j && k then !jk.q
         else if j then true
         else if k then false
         else jk.q)) ∧
    ((jk.update false true true).update true true true).q = !jk.q ∧
    (jk.update true j k).sr_flipflop.master.state =
      (jk.update true j k).sr_flipflop.slave.state := by
  rcases jk with ⟨⟨⟨m⟩, ⟨s⟩⟩⟩
  cases m <;> cases s <;> cases j <;> cases k <;> decide

/-- C4 witness: instantiating the amended theorem at a fresh flip-flop with
`j = true, k = false` and its hypothesis discharged concretely: the rising
edge sets Q. -/
theorem jk_edge_table_witness :
    ((JKFlipflop.new.update false true false).update true true false).q
      = true := by
  have h := (jk_edge_table JKFlipflop.new true false).1 (by decide)
  simpa using h

-- ### C1 machinery: the counter state after t pulses, in closed form

/-- The `n` low bits of `t`, least significant first. -/
def bitsOf : Nat → Nat → List Bool
  | 0, _ => []
  | n + 1, t => (t % 2 == 1) :: bitsOf n (t / 2)

/-- Fixed-width binary increment on an LSB-first bit list (an overflow
carry out of the last position is dropped). -/
def incBits : List Bool → List Bool
  | [] => []
  | b :: bs => (!b) :: (if b then incBits bs else bs)

/-- Numeric value of an LSB-first bit list. -/
def valBits : List Bool → Nat
  | [] => 0
  | b :: bs => (cond b 1 0) + 2 * valBits bs

/-- One settled counter stage holding bit `b`, where `prev` is the bit held
by the stage below (taken true for the least-significant stage, whose clock
line is the external clock, low between pulses): the slave stores `b` and
the master stores `prev XOR b`. -/
def stageOf (prev b : Bool) : DFlipflop := ⟨⟨Bool.xor prev b⟩, ⟨b⟩⟩

/-- The settled counter state encoding an LSB-first bit list. -/
def chainOf : Bool → List Bool → List DFlipflop
  | _, [] => []
  | prev, b :: bs => stageOf prev b :: chainOf b bs

/-- The state of a settled sub-chain after both phases of a pulse have
passed over it with the same incoming clock `c` (as the ripple recursion
produces for every stage after the least significant one). -/
def resChain : Bool → Bool → List Bool → List DFlipflop
  | _, _, [] => []
  | c, prev, b :: bs =>
    if c then
      stageOf false (Bool.xor prev b) ::
        resChain (!(Bool.xor prev b)) b bs
    else stageOf true b :: resChain (!b) b bs

/-- Passing both pulse phases over a settled chain with a common incoming
clock yields `resChain`. -/
theorem ripple_ripple (bs : List Bool) :
    ∀ c p : Bool,
      rippleUpdate c (rippleUpdate c (chainOf p bs)) = resChain c p bs := by
  induction bs with
  | nil => intro c p; rfl
  | cons b bs ih =>
    intro c p
    cases c <;> cases p <;> cases b <;>
      simp [chainOf, rippleUpdate, resChain, stageOf, DFlipflop.update,
        DFlipflop.qn, DFlipflop.q, DLatch.set, DLatch.q, DLatch.qn, gate.not,
        ih]

/-- A sub-chain whose incoming clock is the complement of the bit below it
is left unchanged by the two pulse phases. -/
theorem resChain_not (bs : List Bool) :
    ∀ p : Bool, resChain (!p) p bs = chainOf p bs := by
  induction bs with
  | nil => intro p; rfl
  | cons b bs ih =>
    intro p
    have h0 : resChain true false bs = chainOf false bs := by simpa using ih false
    have h1 : resChain false true bs = chainOf true bs := by simpa using ih true
    cases p <;> cases b <;> simp [resChain, chainOf, stageOf, h0, h1]

/-- With a low incoming clock the two pulse phases re-settle any sub-chain
onto the same bits (the stage below reads as one). -/
theorem resChain_false_eq (bs : List Bool) (p : Bool) :
    resChain false p bs = chainOf true bs := by
  cases bs with
  | nil => rfl
  | cons b bs =>
    show stageOf true b :: resChain (!b) b bs = _
    rw [resChain_not bs b]
    rfl

/-- A sub-chain whose incoming clock equals the bit below it is carried by
the two pulse phases onto the incremented bits when that bit is one, and is
re-settled unchanged when it is zero. -/
theorem resChain_diag (bs : List Bool) :
    ∀ b : Bool,
      resChain b b bs = chainOf (!b) (if b then incBits bs else bs) := by
  induction bs with
  | nil => intro b; cases b <;> rfl
  | cons b1 bs ih =>
    intro b
    cases b with
    | false => simpa using resChain_false_eq (b1 :: bs) false
    | true =>
      cases b1 with
      | false =>
        show stageOf false true :: resChain false false bs = _
        rw [resChain_false_eq bs false]
        rfl
      | true =>
        show stageOf false false :: resChain true true bs = _
        rw [ih true]
        rfl

/-- One complete pulse carries the settled state of any bit list to the
settled state of its binary increment. -/
theorem pulse_chain (bs : List Bool) :
    pulse (chainOf true bs) = chainOf true (incBits bs) := by
  cases bs with
  | nil => rfl
  | cons b bs =>
    cases b with
    | false =>
      show stageOf true true ::
          rippleUpdate false (rippleUpdate false (chainOf false bs)) = _
      rw [ripple_ripple bs false false, resChain_false_eq bs false]
      rfl
    | true =>
      show stageOf true false ::
          rippleUpdate true (rippleUpdate true (chainOf true bs)) = _
      rw [ripple_ripple bs true true, resChain_diag bs true]
      rfl

/-- The construction-time init step settles every stage above the first
with a high clock line. -/
theorem ripple_true_replicate (k : Nat) :
    rippleUpdate true (List.replicate k DFlipflop.new) =
      chainOf false (List.replicate k false) := by
  induction k with
  | zero => rfl
  | succ k ih =>
    show stageOf false false :: rippleUpdate true (List.replicate k DFlipflop.new) = _
    rw [ih]
    rfl

/-- A freshly constructed counter is the settled state of the all-zero bit
list. -/
theorem new_eq_chain (n : Nat) :
    RippleCounter.new n = chainOf true (List.replicate n false) := by
  cases n with
  | zero => rfl
  | succ k =>
    show stageOf true false :: rippleUpdate true (List.replicate k DFlipflop.new) = _
    rw [ripple_true_replicate]
    rfl

/-- The bits of zero are all zero. -/
theorem bitsOf_zero (n : Nat) : bitsOf n 0 = List.replicate n false := by
  induction n with
  | zero => rfl
  | succ n ih => simp [bitsOf, ih, List.replicate]

/-- Taking a fixed number of low bits commutes with increment. -/
theorem bitsOf_succ (n : Nat) :
    ∀ t, bitsOf n (t + 1) = incBits (bitsOf n t) := by
  induction n with
  | zero => intro t; rfl
  | succ n ih =>
    intro t
    rcases Nat.mod_two_eq_zero_or_one t with h | h
    · have h1 : (t + 1) % 2 = 1 := by omega
      have h2 : (t + 1) / 2 = t / 2 := by omega
      simp [bitsOf, incBits, h, h1, h2]
    · have h1 : (t + 1) % 2 = 0 := by omega
      have h2 : (t + 1) / 2 = t / 2 + 1 := by omega
      simp [bitsOf, incBits, h, h1, h2, ih]

/-- Splitting off the lowest binary digit of a remainder. -/
theorem mod_two_mul (q r m : Nat) (hm : 0 < m) (hr : r < 2) :
    (2 * q + r) % (2 * m) = 2 * (q % m) + r := by
  rw [Nat.add_mod, Nat.mul_mod_mul_left, Nat.mod_eq_of_lt (a := r) (by omega)]
  have hq := Nat.mod_lt q hm
  exact Nat.mod_eq_of_lt (by omega)

/-- The value of the `n` low bits of `t` is `t` modulo `2 ^ n`. -/
theorem valBits_bitsOf (n : Nat) : ∀ t, valBits (bitsOf n t) = t % 2 ^ n := by
  induction n with
  | zero => intro t; simp [bitsOf, valBits, Nat.mod_one]
  | succ n ih =>
    intro t
    show (cond (t % 2 == 1) 1 0) + 2 * valBits (bitsOf n (t / 2)) = _
    rw [ih]
    have hc : (cond (t % 2 == 1) 1 0) = t % 2 := by
      rcases Nat.mod_two_eq_zero_or_one t with h | h <;> simp [h]
    rw [hc, pow_succ']
    have hsplit := mod_two_mul (t / 2) (t % 2) (2 ^ n)
      (pow_pos (by norm_num) n) (Nat.mod_lt t (by norm_num))
    rw [Nat.div_add_mod] at hsplit
    omega

/-- The state reached after `t` complete pulses from a fresh counter of
width `n` is the settled chain of the `n` low bits of `t`. -/
theorem pulses_new (n : Nat) :
    ∀ t, pulses t (RippleCounter.new n) = chainOf true (bitsOf n t) := by
  intro t
  induction t with
  | zero => rw [pulses, new_eq_chain, bitsOf_zero]
  | succ t ih =>
    show pulse (pulses t (RippleCounter.new n)) = _
    rw [ih, pulse_chain, bitsOf_succ]

/-- The Q outputs of a settled chain are exactly its bits. -/
theorem map_q_chainOf (bs : List Bool) :
    ∀ p, (chainOf p bs).map DFlipflop.q = bs := by
  induction bs with
  | nil => intro p; rfl
  | cons b bs ih => intro p; simp [chainOf, stageOf, DFlipflop.q, DLatch.q, ih]

/-- A settled chain has one stage per bit. -/
theorem length_chainOf (bs : List Bool) :
    ∀ p, (chainOf p bs).length = bs.length := by
  induction bs with
  | nil => intro p; rfl
  | cons b bs ih => intro p; simp [chainOf, ih]

/-- `bitsOf n` always returns `n` bits. -/
theorem length_bitsOf (n : Nat) : ∀ t, (bitsOf n t).length = n := by
  induction n with
  | zero => intro t; rfl
  | succ n ih => intro t; simp [bitsOf, ih]

/-- The mathematical sum `Σ (Q_i ? 1 : 0) · 2^i` over an LSB-first bit
list, starting at weight `2 ^ i`. -/
def sumPow : Nat → List Bool → Nat
  | _, [] => 0
  | i, b :: bs => (cond b (2 ^ i) 0) + sumPow (i + 1) bs

/-- Bitwise-or with a power of two above all set bits is addition. -/
theorem or_pow_eq_add {val i : Nat} (h : val < 2 ^ i) :
    val ||| 2 ^ i = val + 2 ^ i := by
  have h2 := Nat.mul_add_lt_is_or h 1
  rw [Nat.mul_one] at h2
  rw [Nat.or_comm, ← h2, Nat.add_comm]

/-- The accumulation loop computes the mathematical sum as long as no shift
amount reaches 64 and the bits already accumulated sit below the current
weight. -/
theorem valueAcc_eq (l : List DFlipflop) :
    ∀ i val : Nat, i + l.length ≤ 64 → val < 2 ^ i →
      valueAcc i val l = val + sumPow i (l.map DFlipflop.q) := by
  induction l with
  | nil => intro i val _ _; simp [valueAcc, sumPow]
  | cons ff rest ih =>
    intro i val hlen hval
    have hlc : i + 1 + rest.length ≤ 64 := by
      simp only [List.length_cons] at hlen
      omega
    have hi : i % 64 = i := Nat.mod_eq_of_lt (by omega)
    have hp : (2 : Nat) ^ (i + 1) = 2 * 2 ^ i := pow_succ' 2 i
    rcases ff with ⟨⟨fm⟩, ⟨fs⟩⟩
    cases fs with
    | false =>
      have hv1 : val < 2 ^ (i + 1) := by omega
      show valueAcc (i + 1) (val ||| 0) rest =
        val + (0 + sumPow (i + 1) (rest.map DFlipflop.q))
      rw [Nat.or_zero, ih (i + 1) val hlc hv1]
      omega
    | true =>
      have hor : val ||| 1 <<< (i % 64) = val + 2 ^ i := by
        rw [hi, Nat.one_shiftLeft]
        exact or_pow_eq_add hval
      have hv1 : val + 2 ^ i < 2 ^ (i + 1) := by omega
      show valueAcc (i + 1) (val ||| 1 <<< (i % 64)) rest =
        val + (2 ^ i + sumPow (i + 1) (rest.map DFlipflop.q))
      rw [hor, ih (i + 1) (val + 2 ^ i) hlc hv1]
      omega

/-- For a counter of at most 64 bits, the accumulated `u64` equals the
mathematical sum of the Q bits. -/
theorem valueU64_eq_sumPow (l : List DFlipflop) (h : l.length ≤ 64) :
    RippleCounter.valueU64 l = sumPow 0 (l.map DFlipflop.q) := by
  have h0 := valueAcc_eq l 0 0 (by omega) (by norm_num)
  simpa [RippleCounter.valueU64] using h0

/-- Shifting the starting weight multiplies the sum. -/
theorem sumPow_eq (bs : List Bool) :
    ∀ i, sumPow i bs = 2 ^ i * valBits bs := by
  induction bs with
  | nil => intro i; simp [sumPow, valBits]
  | cons b bs ih =>
    intro i
    cases b <;> simp [sumPow, valBits, ih (i + 1), pow_succ'] <;> ring

/-- A bit list's value is below `2 ^ length`. -/
theorem valBits_lt (bs : List Bool) : valBits bs < 2 ^ bs.length := by
  induction bs with
  | nil => simp [valBits]
  | cons b bs ih =>
    have hp : (2 : Nat) ^ (bs.length + 1) = 2 * 2 ^ bs.length :=
      pow_succ' 2 _
    simp only [valBits, List.length_cons]
    cases b <;> simp only [cond_true, cond_false] <;> omega

/-- The accumulator always stays below `2 ^ 64` (it is a bitwise-or of
masked shifts of one). -/
theorem valueAcc_lt (l : List DFlipflop) :
    ∀ i val : Nat, val < 2 ^ 64 → valueAcc i val l < 2 ^ 64 := by
  induction l with
  | nil => intro i val h; simpa [valueAcc] using h
  | cons ff rest ih =>
    intro i val h
    rcases ff with ⟨⟨fm⟩, ⟨fs⟩⟩
    cases fs with
    | false =>
      show valueAcc (i + 1) (val ||| 0) rest < 2 ^ 64
      rw [Nat.or_zero]
      exact ih (i + 1) val h
    | true =>
      show valueAcc (i + 1) (val ||| 1 <<< (i % 64)) rest < 2 ^ 64
      refine ih (i + 1) _ (Nat.or_lt_two_pow h ?_)
      rw [Nat.one_shiftLeft]
      exact Nat.pow_lt_pow_right (by norm_num) (Nat.mod_lt i (by norm_num))

/-- For a counter of at most 64 bits, the accumulated value fits in the
counter's width. -/
theorem valueU64_lt (l : List DFlipflop) (h : l.length ≤ 64) :
    RippleCounter.valueU64 l < 2 ^ l.length := by
  rw [valueU64_eq_sumPow l h, sumPow_eq, pow_zero, one_mul]
  have hv := valBits_lt (l.map DFlipflop.q)
  simpa using hv

/-- The accumulated value of a settled chain of at most 64 bits is the
value of its bit list. -/
theorem valueU64_chain (bs : List Bool) (h : bs.length ≤ 64) :
    RippleCounter.valueU64 (chainOf true bs) = valBits bs := by
  rw [valueU64_eq_sumPow _ (by rw [length_chainOf]; exact h),
    map_q_chainOf, sumPow_eq, pow_zero, one_mul]

/-- Clearing every flip-flop yields fresh flip-flops. -/
theorem map_clear_eq_replicate (l : List DFlipflop) :
    l.map DFlipflop.clear = List.replicate l.length DFlipflop.new := by
  induction l with
  | nil => rfl
  | cons ff rest ih =>
    simp [DFlipflop.clear, DLatch.clear, DFlipflop.new, DLatch.new, ih,
      List.replicate]

/-- `RippleCounter::clear` coincides with constructing a fresh counter of
the same width. -/
theorem clear_eq_new (l : List DFlipflop) :
    RippleCounter.clear l = RippleCounter.new l.length := by
  rw [RippleCounter.clear, map_clear_eq_replicate]
  rfl

-- ### C1: counter modulo property

/-- C1 amended: for every bit width `n` up to 64 (the width of the `u64`
accumulator read by `value()`), a freshly constructed counter reads 0;
after `t` complete clock pulses (each `update(true)` then `update(false)`)
it reads `t mod 2^n`; and `clear()` returns it to the freshly constructed
state (hence reads 0, and further pulses count again from zero).  With
`n = 8` this yields the spec scenario: 100 pulses read 100, 0 after
`clear()`, and 44 after 300 pulses from zero. -/
theorem ripple_counter_modulo (n t : Nat) (h : n ≤ 64) :
    RippleCounter.valueU64 (RippleCounter.new n) = 0 ∧
    RippleCounter.valueU64 (pulses t (RippleCounter.new n)) = t % 2 ^ n ∧
    RippleCounter.clear (pulses t (RippleCounter.new n)) =
      RippleCounter.new n := by
  have hlenb : (bitsOf n t).length = n := length_bitsOf n t
  refine ⟨?_, ?_, ?_⟩
  · rw [new_eq_chain, ← bitsOf_zero,
      valueU64_chain _ (by rw [length_bitsOf]; exact h), valBits_bitsOf]
    simp
  · rw [pulses_new, valueU64_chain _ (by rw [hlenb]; exact h),
      valBits_bitsOf]
  · have hl : (pulses t (RippleCounter.new n)).length = n := by
      rw [pulses_new, length_chainOf, length_bitsOf]
    rw [clear_eq_new, hl]

/-- C1 witness: the amended theorem at `n = 8`, `t = 100` with its
hypothesis discharged: an 8-bit counter pulsed 100 times reads 100. -/
theorem ripple_counter_modulo_witness :
    RippleCounter.valueU64 (pulses 100 (RippleCounter.new 8)) = 100 := by
  have h := (ripple_counter_modulo 8 100 (by decide)).2.1
  norm_num at h
  exact h

/-- C1 counterexample: the claim fails at bit width 65: after `2^64`
pulses the counter's bits encode `2^64 mod 2^65 = 2^64` (bit 64 set), but
`value()`'s `u64` accumulator masks the shift `1 << 64` to `1 << 0`, so the
counter reads 1 instead of `2^64 mod 2^65`. -/
theorem ripple_counter_modulo_counterexample :
    RippleCounter.valueU64 (pulses (2 ^ 64) (RippleCounter.new 65)) = 1 ∧
    (2 ^ 64) % 2 ^ 65 = 2 ^ 64 ∧
    RippleCounter.valueU64 (pulses (2 ^ 64) (RippleCounter.new 65)) ≠
      (2 ^ 64) % 2 ^ 65 := by
  rw [pulses_new]
  refine ⟨by decide, by decide, by decide⟩

-- ### C9: the width of the value accumulator

/-- C9 amended: the accumulation inside `value()` is performed in a `u64`,
which is sufficiently wide exactly up to 64 bits: for every counter of
width at most 64 the accumulated value equals the mathematical sum
`Σ (Q_i ? 1 : 0) · 2^i` (every shift amount stays below 64), and the
accumulator is always below `2^64`. -/
theorem value_accumulation_exact (l : List DFlipflop) (h : l.length ≤ 64) :
    RippleCounter.valueU64 l = sumPow 0 (l.map DFlipflop.q) ∧
    RippleCounter.valueU64 l < 2 ^ 64 :=
  ⟨valueU64_eq_sumPow l h, valueAcc_lt l 0 0 (by norm_num)⟩

/-- C9 witness: the amended theorem at the freshly constructed 8-bit
counter, hypothesis discharged concretely. -/
theorem value_accumulation_exact_witness :
    RippleCounter.valueU64 (RippleCounter.new 8) =
      sumPow 0 ((RippleCounter.new 8).map DFlipflop.q) :=
  (value_accumulation_exact (RippleCounter.new 8) (by decide)).1

/-- C9 counterexample: at bit width 65 the `u64` accumulator is not wide
enough: in the reachable state after `2^64` pulses (bit 64 set, all lower
bits clear) the mathematical sum is `2^64`, but the accumulated value is 1
because the shift `1 << 64` overflows the `u64` (Rust masks the shift
amount), so the accumulation does not equal the mathematical sum. -/
theorem value_accumulation_counterexample :
    RippleCounter.valueU64 (pulses (2 ^ 64) (RippleCounter.new 65)) = 1 ∧
    sumPow 0 ((pulses (2 ^ 64) (RippleCounter.new 65)).map DFlipflop.q) =
      2 ^ 64 := by
  rw [pulses_new, map_q_chainOf]
  exact ⟨by decide, by decide⟩

-- ### C8: the narrowing conversion of `value()`

/-- C8: `value::<T>()` for an unsigned target type of bit width `w`
returns `Ok` with exactly the accumulated value when that value is
representable in `T` (never truncating it), returns a conversion error
exactly when it is not, and never errs when the counter width is at most
the width of `T`. -/
theorem value_conversion (w : Nat) (l : List DFlipflop) :
    (RippleCounter.value w l = some (RippleCounter.valueU64 l) ↔
      RippleCounter.valueU64 l < 2 ^ w) ∧
    (RippleCounter.value w l = none ↔ 2 ^ w ≤ RippleCounter.valueU64 l) ∧
    (∀ v, RippleCounter.value w l = some v → v = RippleCounter.valueU64 l) ∧
    (l.length ≤ w → RippleCounter.value w l = some (RippleCounter.valueU64 l)) := by
  refine ⟨?_, ?_, ?_, ?_⟩
  · unfold RippleCounter.value tryFromU
    by_cases h : RippleCounter.valueU64 l < 2 ^ w <;> simp [h]
  · unfold RippleCounter.value tryFromU
    by_cases h : RippleCounter.valueU64 l < 2 ^ w <;> simp [h]
    omega
  · intro v
    unfold RippleCounter.value tryFromU
    by_cases h : RippleCounter.valueU64 l < 2 ^ w <;> simp [h]
    intro hv
    exact hv.symm
  · intro hw
    have hlt : RippleCounter.valueU64 l < 2 ^ w := by
      rcases le_or_lt l.length 64 with h64 | h64
      · exact lt_of_lt_of_le (valueU64_lt l h64)
          (Nat.pow_le_pow_right (by norm_num) hw)
      · have h1 : RippleCounter.valueU64 l < 2 ^ 64 :=
          valueAcc_lt l 0 0 (by norm_num)
        have h2 : (2 : Nat) ^ 64 ≤ 2 ^ w :=
          Nat.pow_le_pow_right (by norm_num) (by omega)
        omega
    simp [RippleCounter.value, tryFromU, hlt]

/-- C8 witness: the conversion theorem at the fresh 8-bit counter with an
8-bit target type, hypothesis discharged concretely: the conversion
succeeds and returns the accumulated value. -/
theorem value_conversion_witness :
    RippleCounter.value 8 (RippleCounter.new 8) =
      some (RippleCounter.valueU64 (RippleCounter.new 8)) :=
  (value_conversion 8 (RippleCounter.new 8)).2.2.2 (by decide)
